import Mathlib

/-!
Verification development for the steganographic certificate codec
(Certificate-Auth repository).

The definitions below are a shallow embedding of the JavaScript source:
  * `backend/services/stegoService.js` — LSB bit embedding / extraction,
    noise-defense envelope construction, bit/string conversions;
  * `backend/routes/verify.js` and `backend/routes/issue.js` — the
    verification pipeline and issuance composition;
  * `backend/services/blockchainService.js` — the data-transaction
    verification path (`verifyHash`);
  * `backend/utils/hash.js` — the exported hash utilities.

JavaScript strings are modelled as lists of UTF-16 code units
(`List Nat`) where their character codes matter (the bit codec), and as
Lean `String`s where only equality / case folding matters (the routes).
Pixel buffers are the flat RGBA byte arrays of `ImageData` (`List Nat`,
4 entries per pixel).
-/

/-! ### Bit/string conversions (stegoService.js lines 215-252) -/

/-- `parseInt(binary, 2)` on a binary digit string, most significant bit
first.  `parseInt('')` is `NaN`, which downstream `String.fromCharCode`
turns into code unit 0, so the empty list maps to 0. -/
def bitsToNat (bits : List Bool) : Nat :=
  bits.foldl (fun a b => 2 * a + (if b then 1 else 0)) 0

/-- Digit-accumulation core for `num.toString(2)` (fuel-based, in the
style of `Nat.toDigits`, so that it evaluates by reduction). -/
def natBitsRawCore : Nat → Nat → List Bool → List Bool
  | _, 0, acc => acc
  | n, fuel + 1, acc =>
    let acc' := (n % 2 == 1) :: acc
    if n < 2 then acc' else natBitsRawCore (n / 2) fuel acc'

/-- `num.toString(2)`: the binary digits of `n`, MSB first ("0" for 0). -/
def natBitsRaw (n : Nat) : List Bool :=
  natBitsRawCore n (n + 1) []

/-- Recursive characterization of the binary digits (proof companion of
`natBitsRaw`; not itself evaluated). -/
def bitsOfNat (n : Nat) : List Bool :=
  if _h : n < 2 then [n == 1]
  else bitsOfNat (n / 2) ++ [n % 2 == 1]
termination_by n
decreasing_by omega

/-- `numberToBinary(num, length)`: `num.toString(2).padStart(length,'0')`.
If the raw digits are longer than `length`, `padStart` pads nothing. -/
def natToBits (n len : Nat) : List Bool :=
  List.replicate (len - (natBitsRaw n).length) false ++ natBitsRaw n

/-- `stringToBinary(str)`: each UTF-16 code unit becomes
`charCodeAt(0).toString(2).padStart(8,'0')`, concatenated. -/
def stringToBinary (codes : List Nat) : List Bool :=
  codes.flatMap (fun c => natToBits c 8)

/-- `binaryToString(binary)`: consume 8 bits at a time (the final chunk
may be shorter) and emit `parseInt(byte, 2)` as a code unit. -/
def binaryToString : List Bool → List Nat
  | [] => []
  | b1 :: b2 :: b3 :: b4 :: b5 :: b6 :: b7 :: b8 :: rest =>
    bitsToNat [b1, b2, b3, b4, b5, b6, b7, b8] :: binaryToString rest
  | bits => [bitsToNat bits]

/-- The 16-bit end marker `'1111111111111110'` (stegoService.js line 65). -/
def endMarker : List Bool :=
  [true, true, true, true, true, true, true, true,
   true, true, true, true, true, true, true, false]

/-! ### LSB pixel operations (stegoService.js lines 72-80, 114-132) -/

/-- `(pixel & 0xFE) | bit` — write `bit` into the least significant bit. -/
def setLSB (p : Nat) (bit : Bool) : Nat :=
  (p &&& 0xFE) ||| (if bit then 1 else 0)

/-- `(pixel & 1)` read back as a bit. -/
def lsbBit (p : Nat) : Bool :=
  (p &&& 1) == 1

/-- The embedding loop (stegoService.js lines 73-80): walk the flat RGBA
array four bytes at a time, writing the next bitstream bits into the
LSBs of the R, G, B channels and skipping alpha, until the bits run out.
`ImageData` buffers always have length `4 * pixelCount`, so the final
catch-all (fewer than four bytes left with bits remaining) is
unreachable on real inputs and leaves the bytes unchanged. -/
def writeLSBs : List Nat → List Bool → List Nat
  | ps, [] => ps
  | r :: g :: b :: a :: rest, x :: bits =>
    match bits with
    | [] => setLSB r x :: g :: b :: a :: rest
    | [y] => setLSB r x :: setLSB g y :: b :: a :: rest
    | y :: z :: bits' => setLSB r x :: setLSB g y :: setLSB b z :: a :: writeLSBs rest bits'
  | ps, _ => ps

/-- The LSB stream read by the extraction loop (stegoService.js lines
118-132): one bit per R, G, B channel in row-major order, alpha skipped. -/
def rgbLSBs : List Nat → List Bool
  | r :: g :: b :: _ :: rest => lsbBit r :: lsbBit g :: lsbBit b :: rgbLSBs rest
  | _ => []

/-- The extraction scan (stegoService.js lines 115-132): accumulate the
LSB stream bit by bit; once at least 16 bits have accumulated, compare
the most recent 16 against the end marker; on a hit, return the
accumulated bits with the marker removed, otherwise `none` when the
stream is exhausted. -/
def scanForMarker : List Bool → List Bool → Option (List Bool)
  | [], _ => none
  | b :: rest, acc =>
    let acc' := acc ++ [b]
    if 16 ≤ acc'.length ∧ acc'.drop (acc'.length - 16) = endMarker then
      some (acc'.take (acc'.length - 16))
    else
      scanForMarker rest acc'

/-! ### Envelope construction (stegoService.js lines 36-57) -/

/-- One entry of a noise-mode envelope.  The real entry built at line 51
is `{ type: 'real', data }`; a decoy built at lines 41-46 is
`{ type: 'decoy', fakeHash, fakeSignature, fakeIssuer }`.  Absent fields
are `none` (JavaScript `undefined`, falsy). -/
structure NEntry (α : Type) where
  tag : String
  payload : Option α := none
  fakeHash : Option String := none
  fakeSignature : Option String := none
  fakeIssuer : Option String := none
  deriving DecidableEq, Repr

/-- The serialized payload shape (stegoService.js lines 48-57): either
`{ mode: 'noise', entries }` or `{ mode: 'plain', data }`. -/
inductive Envelope (α : Type) where
  | noise (entries : List (NEntry α))
  | plain (data : α)
  deriving DecidableEq, Repr

/-- The `{ type: 'real', data }` entry (stegoService.js line 51). -/
def realNEntry {α : Type} (data : α) : NEntry α :=
  { tag := "real", payload := some data }

/-- The lowercase hex digit for a nibble, by code point (0-9 then a-f),
as produced by Node's `Buffer.toString('hex')`. -/
def hexDigitChar (n : Nat) : Char :=
  if n < 10 then Char.ofNat (48 + n) else Char.ofNat (87 + n)

/-- `Buffer.toString('hex')`: two lowercase hex characters per byte. -/
def hexEncode (bytes : List Nat) : String :=
  String.mk (bytes.flatMap (fun b => [hexDigitChar (b / 16), hexDigitChar (b % 16)]))

/-- One decoy entry (stegoService.js lines 41-46).  `hashBytes` and
`sigBytes` model the two `crypto.randomBytes(32)` draws and `suffix`
models `Math.random().toString(36).slice(2, 8)`. -/
def mkDecoy (α : Type) (hashBytes sigBytes : List Nat) (suffix : String) : NEntry α :=
  { tag := "decoy"
    payload := none
    fakeHash := some (hexEncode hashBytes)
    fakeSignature := some (hexEncode sigBytes)
    fakeIssuer := some ("decoy-" ++ suffix) }

/-- The decoy generation loop (stegoService.js lines 39-47): one decoy
per entropy draw, in order. -/
def genDecoys (α : Type) (entropy : List (List Nat × List Nat × String)) : List (NEntry α) :=
  entropy.map (fun e => mkDecoy α e.1 e.2.1 e.2.2)

/-- Payload construction (stegoService.js lines 37-57): noise defense
places the real entry first, followed by the decoys in generation
order; otherwise the payload is plain. -/
def buildEmbedPayload {α : Type} (data : α) (noiseDefense : Bool)
    (decoys : List (NEntry α)) : Envelope α :=
  if noiseDefense then Envelope.noise (realNEntry data :: decoys)
  else Envelope.plain data

/-- The entry list of a noise envelope (empty for plain mode). -/
def envelopeEntries {α : Type} : Envelope α → List (NEntry α)
  | Envelope.noise entries => entries
  | Envelope.plain _ => []

/-- Index of the first entry tagged "real", the observable the noise
defense is supposed to randomize (`entries.length` when absent). -/
def realEntryIndex {α : Type} (entries : List (NEntry α)) : Nat :=
  entries.findIdx (fun e => e.tag == "real")

/-! ### Extraction and disambiguation (stegoService.js lines 102-163) -/

/-- The predicate of `entries.find(e => e && e.type === 'real' && e.data)`
(stegoService.js line 149). -/
def realPred {α : Type} (e : NEntry α) : Bool :=
  e.tag == "real" && e.payload.isSome

/-- Disambiguation (stegoService.js lines 147-155): in noise mode the
first entry satisfying `realPred` is selected (`null` when there is
none); in plain mode `data` is returned. -/
def dispatchEnvelope {α : Type} : Envelope α → Option α
  | Envelope.noise entries =>
    match entries.find? realPred with
    | some e => e.payload
    | none => none
  | Envelope.plain data => some data

/-- The framed bitstream (stegoService.js lines 60-66): 32-bit length
field, the serialized payload bits, then the 16-bit end marker. -/
def embedPayloadBits (codes : List Nat) : List Bool :=
  natToBits codes.length 32 ++ stringToBinary codes ++ endMarker

/-- `embedData` after payload serialization (stegoService.js lines
60-90): reject when the framed bitstream is longer than
`pixels.length * 3` (note `pixels.length` is the RGBA byte count, i.e.
`4 * pixelCount`), otherwise write the bits into the channel LSBs.
`none` models the thrown capacity error. -/
def embedData (pixels : List Nat) (codes : List Nat) : Option (List Nat) :=
  let full := embedPayloadBits codes
  if pixels.length * 3 < full.length then none
  else some (writeLSBs pixels full)

/-- `extractData` on a decoded pixel buffer (stegoService.js lines
111-158).  `par` models `JSON.parse` composed with the envelope shape
dispatch on the recovered string: `none` when `JSON.parse` throws (the
surrounding catch returns `null`). -/
def extractPixels {α : Type} (pixels : List Nat)
    (par : List Nat → Option (Envelope α)) : Option α :=
  match scanForMarker (rgbLSBs pixels) [] with
  | none => none
  | some binaryData =>
    if binaryData.length < 32 then none
    else
      let dataLength := bitsToNat (binaryData.take 32)
      let dataBinary := (binaryData.drop 32).take (8 * dataLength)
      match par (binaryToString dataBinary) with
      | none => none
      | some env => dispatchEnvelope env

/-- `extractData` from the file boundary (stegoService.js lines
102-163): `readFileSync`/`loadImage` faults are caught by the
surrounding try/catch, which returns `null` (lines 159-162). -/
def extractFromRead {α : Type} (read : Except String (List Nat))
    (par : List Nat → Option (Envelope α)) : Option α :=
  match read with
  | Except.error _ => none
  | Except.ok pixels => extractPixels pixels par

/-! ### Verification pipeline (verify.js lines 42-117,
blockchainService.js lines 104-144) and issuance (issue.js lines
43-144, utils/hash.js lines 380-390) -/

/-- JavaScript `String.prototype.startsWith`, modelled character-wise. -/
def jsStartsWith (s p : String) : Bool :=
  s.data.take p.data.length == p.data

/-- JavaScript `String.prototype.toLowerCase`, modelled character-wise
(the strings involved are ASCII hex). -/
def jsToLower (s : String) : String :=
  String.mk (s.data.map Char.toLower)

/-- `'0x' + hash` normalization used when storing
(blockchainService.js line 81). -/
def ensure0x (s : String) : String :=
  if jsStartsWith s "0x" then s else "0x" ++ s

/-- The normalization of `expectedHash` in the data-transaction
verification path (blockchainService.js line 129). -/
def normalizeHex (s : String) : String :=
  jsToLower (ensure0x s)

/-- The data-transaction comparison (blockchainService.js lines
128-130): `valid = !!data && data.toLowerCase() === normalizedExpected`. -/
def verifyHashData (chainData : Option String) (expectedHash : String) : Bool :=
  match chainData with
  | none => false
  | some d => jsToLower d == normalizeHex expectedHash

/-- The payload embedded at issuance (issue.js lines 91-98), as consumed
by the verification route. -/
structure EmbeddedPayload where
  transactionHash : String
  signature : String
  certificateHash : String
  combinedHash : String
  issuerId : String
  deriving DecidableEq, Repr

/-- The fields of the verification response JSON that the claims are
about (verify.js lines 60-108).  `blockchainVerified` and
`signatureVerified` mirror `verificationDetails`. -/
structure VerifyResponse where
  success : Bool
  valid : Bool
  message : String
  hasEmbeddedData : Bool
  blockchainVerified : Bool
  signatureVerified : Bool
  deriving DecidableEq, Repr

/-- The response returned when extraction yields `null`
(verify.js lines 60-72). -/
def noEmbeddedDataResponse : VerifyResponse :=
  { success := false
    valid := false
    message := "No embedded verification data found in certificate"
    hasEmbeddedData := false
    blockchainVerified := false
    signatureVerified := false }

/-- The top-level JSON keys of the no-embedded-data response
(verify.js lines 61-71). -/
def verifyNoEmbeddedKeys : List String :=
  ["success", "valid", "message", "verificationDetails"]

/-- The keys of `verificationDetails` in the no-embedded-data response
(verify.js lines 65-70). -/
def verifyNoEmbeddedDetailKeys : List String :=
  ["certificateHash", "hasEmbeddedData", "blockchainVerified", "signatureVerified"]

/-- The verification route after hashing the upload (verify.js lines
56-108): on `null` extraction return the no-embedded-data response;
otherwise run `blockchainService.verifyHash(embedded.transactionHash,
certificateHash)` — note the second argument is the bare recomputed
file hash — and the signature check, and combine. -/
def verifyPipeline (chain : String → Option String)
    (sigCheck : String → String → String → Bool)
    (fileHash : String) : Option EmbeddedPayload → VerifyResponse
  | none => noEmbeddedDataResponse
  | some p =>
    let bv := verifyHashData (chain p.transactionHash) fileHash
    let sv := sigCheck fileHash p.signature p.issuerId
    { success := true
      valid := bv && sv
      message := if bv && sv then "Certificate is valid and authentic"
                 else "Certificate verification failed"
      hasEmbeddedData := true
      blockchainVerified := bv
      signatureVerified := sv }

/-- The full verification flow from the carrier read (verify.js lines
56-108 composed with stegoService.extractData). -/
def verifyCertificateFromRead (par : List Nat → Option (Envelope EmbeddedPayload))
    (read : Except String (List Nat)) (chain : String → Option String)
    (sigCheck : String → String → String → Bool) (fileHash : String) : VerifyResponse :=
  verifyPipeline chain sigCheck fileHash (extractFromRead read par)

/-- The names exported by `module.exports` of utils/hash.js
(lines 380-390). -/
def hashUtilsExports : List String :=
  ["generateHash", "generateStringHash", "generateBufferHash",
   "verifyFileIntegrity", "generateSaltedHash", "generateHMAC",
   "generateMultipleHashes", "generateMetadataHash", "validateHashFormat"]

/-- The binding `generateCombinedHash` destructured by issue.js line 8
from utils/hash.js.  The module exports no such member (utils/hash.js
lines 380-390), so the binding is `undefined`, modelled as `none`. -/
def importedGenerateCombinedHash : Option (String → String → String) :=
  none

/-- Issuance step 3 (issue.js line 86): call the imported
`generateCombinedHash(certificateHash, signature)`.  Calling an
`undefined` binding throws a `TypeError`. -/
def issueCombinedHashStep (certificateHash signature : String) : Except String String :=
  match importedGenerateCombinedHash with
  | some f => Except.ok (f certificateHash signature)
  | none => Except.error "TypeError: generateCombinedHash is not a function"

/-- The UTF-16 code units of `{"mode":"plain","data":"ÿÿ"}` — the
serialization `JSON.stringify` produces for a plain envelope whose
payload string is `"ÿÿ"` (U+00FF is emitted verbatim, not escaped).
The two code units 255 contribute sixteen consecutive 1-bits to the
embedded stream. -/
def nonAsciiEnvelopeCodes : List Nat :=
  [123, 34, 109, 111, 100, 101, 34, 58, 34, 112, 108, 97, 105, 110, 34, 44,
   34, 100, 97, 116, 97, 34, 58, 34, 255, 255, 34, 125]

/-- A parser that inverts the serialization above (the JSON layer
behaves correctly on this envelope; the round-trip failure is the bit
codec's own). -/
def nonAsciiParser : List Nat → Option (Envelope String) :=
  fun s => if s = nonAsciiEnvelopeCodes then some (Envelope.plain "ÿÿ") else none

/-! ### Helper lemmas -/

theorem find?_append_of_none {α : Type} (p : α → Bool) (l₁ l₂ : List α)
    (h : l₁.find? p = none) : (l₁ ++ l₂).find? p = l₂.find? p := by
  induction l₁ with
  | nil => rfl
  | cons a t ih =>
    cases hpa : p a with
    | true => simp [List.find?_cons, hpa] at h
    | false =>
      simp only [List.find?_cons, hpa] at h
      simpa [List.find?_cons, hpa] using ih h

theorem hexEncode_length (bytes : List Nat) :
    (hexEncode bytes).length = 2 * bytes.length := by
  induction bytes with
  | nil => rfl
  | cons b bs ih =>
    simp only [hexEncode, String.length, List.flatMap_cons] at ih ⊢
    simp only [List.length_append, List.length_cons, List.length_nil] at ih ⊢
    omega

theorem natBitsRawCore_spec :
    ∀ (fuel n : Nat) (acc : List Bool), n < fuel →
      natBitsRawCore n fuel acc = bitsOfNat n ++ acc := by
  intro fuel
  induction fuel with
  | zero => intro n acc h; omega
  | succ f ih =>
    intro n acc h
    by_cases h2 : n < 2
    · have hn : n = 0 ∨ n = 1 := by omega
      rcases hn with rfl | rfl <;> simp [natBitsRawCore, bitsOfNat]
    · rw [bitsOfNat]
      simp only [natBitsRawCore, if_neg h2, dif_neg h2]
      rw [ih (n / 2) _ (by omega), List.append_assoc, List.singleton_append]

theorem natBitsRaw_eq (n : Nat) : natBitsRaw n = bitsOfNat n := by
  unfold natBitsRaw
  rw [natBitsRawCore_spec (n + 1) n [] (by omega), List.append_nil]

theorem bitsOfNat_length_le (k : Nat) :
    ∀ n, 1 ≤ k → n < 2 ^ k → (bitsOfNat n).length ≤ k := by
  induction k with
  | zero => intro n hk _; omega
  | succ k ih =>
    intro n _ hn
    rw [bitsOfNat]
    by_cases h2 : n < 2
    · simp [h2]
    · have hk1 : 1 ≤ k := by
        rcases Nat.eq_zero_or_pos k with rfl | h
        · simp at hn; omega
        · exact h
      have hpow : 2 ^ (k + 1) = 2 * 2 ^ k := by rw [pow_succ]; ring
      have hhalf : n / 2 < 2 ^ k := by omega
      have := ih (n / 2) hk1 hhalf
      simp [h2, List.length_append]
      omega

theorem bitsToNat_foldl (l : List Bool) (a : Nat) :
    l.foldl (fun a b => 2 * a + (if b then 1 else 0)) a
      = a * 2 ^ l.length + bitsToNat l := by
  induction l generalizing a with
  | nil => simp [bitsToNat]
  | cons b t ih =>
    simp only [List.foldl_cons, List.length_cons]
    rw [ih]
    conv_rhs => rw [bitsToNat]
    simp only [List.foldl_cons]
    rw [show t.foldl (fun a b => 2 * a + (if b then 1 else 0))
          (2 * 0 + (if b then 1 else 0))
        = (2 * 0 + (if b then 1 else 0)) * 2 ^ t.length + bitsToNat t from ih _]
    cases b <;> simp <;> ring

theorem bitsToNat_append (xs ys : List Bool) :
    bitsToNat (xs ++ ys) = bitsToNat xs * 2 ^ ys.length + bitsToNat ys := by
  rw [bitsToNat, List.foldl_append, bitsToNat_foldl]
  rfl

theorem bitsToNat_bitsOfNat : ∀ n, bitsToNat (bitsOfNat n) = n := by
  intro n
  induction n using Nat.strong_induction_on with
  | _ n ih =>
    rw [bitsOfNat]
    by_cases h2 : n < 2
    · have hn : n = 0 ∨ n = 1 := by omega
      rcases hn with rfl | rfl <;> simp [bitsToNat]
    · rw [dif_neg h2, bitsToNat_append, ih (n / 2) (by omega)]
      have hmod : n % 2 = 0 ∨ n % 2 = 1 := by omega
      rcases hmod with hm | hm <;> simp [bitsToNat, hm] <;> omega

theorem natToBits_length (n len : Nat) (h : (natBitsRaw n).length ≤ len) :
    (natToBits n len).length = len := by
  simp [natToBits]
  omega

theorem bitsToNat_replicate_false (m : Nat) (l : List Bool) :
    bitsToNat (List.replicate m false ++ l) = bitsToNat l := by
  rw [bitsToNat_append]
  have hz : bitsToNat (List.replicate m false) = 0 := by
    induction m with
    | zero => rfl
    | succ k ihk =>
      rw [List.replicate_succ, bitsToNat, List.foldl_cons]
      rw [bitsToNat] at ihk
      simpa using ihk
  rw [hz]
  ring

theorem bitsToNat_natToBits (n len : Nat) : bitsToNat (natToBits n len) = n := by
  rw [natToBits, bitsToNat_replicate_false, natBitsRaw_eq, bitsToNat_bitsOfNat]

theorem natToBits_eight_length (c : Nat) (h : c < 256) : (natToBits c 8).length = 8 := by
  refine natToBits_length _ _ ?_
  rw [natBitsRaw_eq]
  refine bitsOfNat_length_le 8 c (by omega) ?_
  norm_num
  omega

theorem natToBits_thirtytwo_length (n : Nat) (h : n < 4294967296) :
    (natToBits n 32).length = 32 := by
  refine natToBits_length _ _ ?_
  rw [natBitsRaw_eq]
  refine bitsOfNat_length_le 32 n (by omega) ?_
  norm_num
  omega

theorem stringToBinary_length (codes : List Nat) (h : ∀ c ∈ codes, c < 256) :
    (stringToBinary codes).length = 8 * codes.length := by
  induction codes with
  | nil => rfl
  | cons c cs ih =>
    rw [stringToBinary, List.flatMap_cons]
    rw [List.length_append, natToBits_eight_length c (h c (by simp))]
    have := ih (fun x hx => h x (by simp [hx]))
    rw [stringToBinary] at this
    rw [this, List.length_cons]
    ring

theorem binaryToString_append_eight (bits rest : List Bool) (h : bits.length = 8) :
    binaryToString (bits ++ rest) = bitsToNat bits :: binaryToString rest := by
  rcases bits with _ | ⟨b1, bits⟩; · simp at h
  rcases bits with _ | ⟨b2, bits⟩; · simp at h
  rcases bits with _ | ⟨b3, bits⟩; · simp at h
  rcases bits with _ | ⟨b4, bits⟩; · simp at h
  rcases bits with _ | ⟨b5, bits⟩; · simp at h
  rcases bits with _ | ⟨b6, bits⟩; · simp at h
  rcases bits with _ | ⟨b7, bits⟩; · simp at h
  rcases bits with _ | ⟨b8, bits⟩; · simp at h
  have hb : bits = [] := by
    simp only [List.length_cons] at h
    exact List.eq_nil_of_length_eq_zero (by omega)
  subst hb
  rfl

theorem binaryToString_stringToBinary (codes : List Nat) (h : ∀ c ∈ codes, c < 256) :
    binaryToString (stringToBinary codes) = codes := by
  induction codes with
  | nil => rfl
  | cons c cs ih =>
    rw [stringToBinary, List.flatMap_cons]
    rw [binaryToString_append_eight _ _ (natToBits_eight_length c (h c (by simp)))]
    rw [bitsToNat_natToBits]
    have := ih (fun x hx => h x (by simp [hx]))
    rw [stringToBinary] at this
    rw [this]

theorem setLSB_and_one (p : Nat) (x : Bool) : setLSB p x &&& 1 = if x then 1 else 0 := by
  apply Nat.eq_of_testBit_eq
  intro i
  cases i with
  | zero =>
    simp only [setLSB, Nat.testBit_and, Nat.testBit_lor]
    cases x <;> simp
  | succ j =>
    simp only [setLSB, Nat.testBit_and, Nat.testBit_lor]
    have h1 : Nat.testBit 1 (j + 1) = false := Nat.testBit_lt_two_pow (Nat.one_lt_two_pow_iff.mpr (by omega))
    cases x <;> simp [h1]

theorem lsb_setLSB (p : Nat) (x : Bool) : lsbBit (setLSB p x) = x := by
  simp only [lsbBit, setLSB_and_one]
  cases x <;> simp

theorem rgbLSBs_writeLSBs :
    ∀ (pixels : List Nat) (bits : List Bool),
      pixels.length % 4 = 0 → bits.length ≤ 3 * (pixels.length / 4) →
      rgbLSBs (writeLSBs pixels bits) = bits ++ (rgbLSBs pixels).drop bits.length := by
  intro pixels bits
  induction pixels, bits using writeLSBs.induct with
  | case1 ps => intro _ _; simp [writeLSBs]
  | case2 r g b a rest x =>
    intro _ _
    simp [writeLSBs, rgbLSBs, lsb_setLSB]
  | case3 r g b a rest x y =>
    intro _ _
    simp [writeLSBs, rgbLSBs, lsb_setLSB]
  | case4 r g b a rest x y z bits' ih =>
    intro hmod hle
    have hmod' : rest.length % 4 = 0 := by
      simp only [List.length_cons] at hmod
      omega
    have hle' : bits'.length ≤ 3 * (rest.length / 4) := by
      simp only [List.length_cons] at hle
      omega
    simp [writeLSBs, rgbLSBs, lsb_setLSB, ih hmod' hle']
  | case5 ps bits h1 h2 =>
    intro hmod hle
    obtain ⟨x, bs, rfl⟩ : ∃ x bs, bits = x :: bs := by
      cases bits with
      | nil => exact absurd rfl h1
      | cons x bs => exact ⟨x, bs, rfl⟩
    rcases ps with _ | ⟨r, _ | ⟨g, _ | ⟨b, _ | ⟨a, rest⟩⟩⟩⟩
    · simp only [List.length_nil, List.length_cons] at hle
      omega
    · simp only [List.length_cons, List.length_nil] at hmod
      omega
    · simp only [List.length_cons, List.length_nil] at hmod
      omega
    · simp only [List.length_cons, List.length_nil] at hmod
      omega
    · exact (h2 r g b a rest x bs rfl rfl).elim

theorem endMarker_eq : endMarker = List.replicate 15 true ++ [false] := by decide

theorem scanForMarker_cons (b : Bool) (rest acc : List Bool) :
    scanForMarker (b :: rest) acc =
      if 16 ≤ (acc ++ [b]).length ∧ (acc ++ [b]).drop ((acc ++ [b]).length - 16) = endMarker
      then some ((acc ++ [b]).take ((acc ++ [b]).length - 16))
      else scanForMarker rest (acc ++ [b]) := rfl

theorem getLast?_true_ne_marker (l : List Bool) (h : l.getLast? = some true) :
    ¬(16 ≤ l.length ∧ l.drop (l.length - 16) = endMarker) := by
  rintro ⟨hlen, heq⟩
  have hdlen : (l.drop (l.length - 16)).length = 16 := by
    rw [List.length_drop]; omega
  have hdne : l.drop (l.length - 16) ≠ [] := by
    intro hnil; rw [hnil] at hdlen; simp at hdlen
  have hlast : (l.drop (l.length - 16)).getLast? = l.getLast? := by
    conv_rhs => rw [← List.take_append_drop (l.length - 16) l]
    rw [List.getLast?_append_of_ne_nil _ hdne]
  rw [heq, h] at hlast
  simp [endMarker] at hlast

theorem scan_skip_trues : ∀ (m : Nat) (rest acc : List Bool),
    scanForMarker (List.replicate m true ++ rest) acc
      = scanForMarker rest (acc ++ List.replicate m true) := by
  intro m
  induction m with
  | zero => intro rest acc; simp
  | succ k ih =>
    intro rest acc
    rw [List.replicate_succ, List.cons_append, scanForMarker_cons]
    have hne := getLast?_true_ne_marker (acc ++ [true]) (by simp)
    rw [if_neg hne, ih rest (acc ++ [true])]
    congr 1
    rw [List.append_assoc, List.singleton_append]

theorem scan_marker_hits (acc tail : List Bool) :
    scanForMarker (endMarker ++ tail) acc = some acc := by
  rw [endMarker_eq, List.append_assoc, scan_skip_trues, List.singleton_append,
      scanForMarker_cons]
  have hlen : ((acc ++ List.replicate 15 true) ++ [false]).length = acc.length + 16 := by
    simp
  have hdrop : ((acc ++ List.replicate 15 true) ++ [false]).drop
      (((acc ++ List.replicate 15 true) ++ [false]).length - 16) = endMarker := by
    rw [hlen, List.append_assoc]
    have : acc.length + 16 - 16 = (acc).length := by omega
    rw [this, List.drop_left, endMarker_eq]
  rw [if_pos ⟨by rw [hlen]; omega, hdrop⟩]
  rw [hlen, List.append_assoc]
  have : acc.length + 16 - 16 = (acc).length := by omega
  rw [this, List.take_left]

theorem scan_through : ∀ (pre acc tail : List Bool),
    (∀ k, 1 ≤ k → k ≤ pre.length →
      ¬(16 ≤ (acc ++ pre.take k).length ∧
        (acc ++ pre.take k).drop ((acc ++ pre.take k).length - 16) = endMarker)) →
    scanForMarker (pre ++ (endMarker ++ tail)) acc = some (acc ++ pre) := by
  intro pre
  induction pre with
  | nil =>
    intro acc tail _
    simpa using scan_marker_hits acc tail
  | cons p pre' ih =>
    intro acc tail hno
    rw [List.cons_append, scanForMarker_cons]
    have h1 := hno 1 (by omega) (by simp)
    have ht1 : (p :: pre').take 1 = [p] := rfl
    rw [ht1] at h1
    rw [if_neg h1]
    have hno' : ∀ k, 1 ≤ k → k ≤ pre'.length →
        ¬(16 ≤ ((acc ++ [p]) ++ pre'.take k).length ∧
          ((acc ++ [p]) ++ pre'.take k).drop
            (((acc ++ [p]) ++ pre'.take k).length - 16) = endMarker) := by
      intro k hk1 hk2
      have hk := hno (k + 1) (by omega) (by simp; omega)
      have ht : (p :: pre').take (k + 1) = p :: pre'.take k := List.take_succ_cons
      rw [ht] at hk
      have hassoc : acc ++ p :: pre'.take k = (acc ++ [p]) ++ pre'.take k := by
        rw [List.append_assoc, List.singleton_append]
      rwa [hassoc] at hk
    rw [ih (acc ++ [p]) tail hno']
    congr 1
    rw [List.append_assoc, List.singleton_append]

theorem natBitsRaw_length_le_of_lt (n k : Nat) (hk : 1 ≤ k) (hn : n < 2 ^ k) :
    (natBitsRaw n).length ≤ k := by
  rw [natBitsRaw_eq]
  exact bitsOfNat_length_le k n hk hn

theorem stringToBinary_msb (codes : List Nat) (hascii : ∀ c ∈ codes, c < 128) :
    ∀ q, q % 8 = 0 → q < (stringToBinary codes).length →
      (stringToBinary codes)[q]? = some false := by
  induction codes with
  | nil => intro q _ hq; simp [stringToBinary] at hq
  | cons c cs ih =>
    intro q hq8 hqlt
    have hc : c < 128 := hascii c (by simp)
    have h8 : (natToBits c 8).length = 8 := natToBits_eight_length c (by omega)
    rw [stringToBinary, List.flatMap_cons]
    by_cases hq : q < 8
    · have hq0 : q = 0 := by omega
      subst hq0
      rw [List.getElem?_append_left (by omega)]
      have hraw : (natBitsRaw c).length ≤ 7 := by
        refine natBitsRaw_length_le_of_lt c 7 (by omega) ?_
        norm_num
        omega
      rw [natToBits]
      rw [List.getElem?_append_left (by simp; omega)]
      exact List.getElem?_replicate_of_lt (by omega)
    · rw [List.getElem?_append_right (by omega), h8]
      have hqlt' : q - 8 < (stringToBinary cs).length := by
        rw [stringToBinary, List.flatMap_cons, List.length_append, h8] at hqlt
        rw [stringToBinary]
        omega
      have := ih (fun x hx => hascii x (by simp [hx])) (q - 8) (by omega) hqlt'
      rw [stringToBinary] at this
      exact this

theorem natToBits32_zero_at (n : Nat) (hn : n < 32768) :
    ∀ pos, pos ≤ 16 → (natToBits n 32)[pos]? = some false := by
  intro pos hpos
  have hraw : (natBitsRaw n).length ≤ 15 := by
    refine natBitsRaw_length_le_of_lt n 15 (by omega) ?_
    norm_num
    omega
  rw [natToBits]
  rw [List.getElem?_append_left (by simp; omega)]
  exact List.getElem?_replicate_of_lt (by omega)

theorem natToBits32_low15_true_impossible (n : Nat) (hn : n < 32767)
    (h : ∀ i, i < 15 → (natToBits n 32)[17 + i]? = some true) : False := by
  have hlen32 : (natToBits n 32).length = 32 :=
    natToBits_thirtytwo_length n (by omega)
  have htake : (natToBits n 32).take 17 ++ List.replicate 15 true = natToBits n 32 := by
    refine List.ext_getElem?_iff.mpr ?_
    intro i
    have hlent : ((natToBits n 32).take 17).length = 17 := by
      rw [List.length_take]
      omega
    by_cases h17 : i < 17
    · rw [List.getElem?_append_left (by omega)]
      exact List.getElem?_take_of_lt h17
    · by_cases h32 : i < 32
      · rw [List.getElem?_append_right (by omega), hlent]
        rw [List.getElem?_replicate_of_lt (by omega)]
        have := h (i - 17) (by omega)
        rw [show 17 + (i - 17) = i by omega] at this
        exact this.symm
      · rw [List.getElem?_eq_none (by simp [hlent]; omega)]
        rw [List.getElem?_eq_none (by omega)]
  have hval : n = bitsToNat ((natToBits n 32).take 17 ++ List.replicate 15 true) := by
    rw [htake, bitsToNat_natToBits]
  rw [bitsToNat_append] at hval
  have hrep : bitsToNat (List.replicate 15 true) = 32767 := by decide
  rw [hrep] at hval
  simp only [List.length_replicate] at hval
  omega

theorem ascii_no_false_marker (codes : List Nat)
    (hascii : ∀ c ∈ codes, c < 128) (hlen : codes.length < 32767) :
    ∀ k, 16 ≤ k →
      k ≤ (natToBits codes.length 32 ++ stringToBinary codes).length →
      ((natToBits codes.length 32 ++ stringToBinary codes).take k).drop (k - 16)
        ≠ endMarker := by
  intro k h16 hk hcontra
  set pre := natToBits codes.length 32 ++ stringToBinary codes with hpre
  have hP32len : (natToBits codes.length 32).length = 32 :=
    natToBits_thirtytwo_length codes.length (by omega)
  have hDlen : (stringToBinary codes).length = 8 * codes.length :=
    stringToBinary_length codes (fun c hc => by have := hascii c hc; omega)
  have hprelen : pre.length = 32 + 8 * codes.length := by
    rw [hpre, List.length_append, hP32len, hDlen]
  have hwin : ∀ i, i < 16 → pre[(k - 16) + i]? = endMarker[i]? := by
    intro i hi
    have hcast := congrArg (fun l => l[i]?) hcontra
    simp only at hcast
    rw [List.getElem?_drop] at hcast
    rw [List.getElem?_take_of_lt (by omega)] at hcast
    exact hcast
  have hmarker_true : ∀ i, i < 15 → endMarker[i]? = some true := by
    intro i hi
    interval_cases i <;> rfl
  have hpreF1 : ∀ pos, pos ≤ 16 → pre[pos]? = some false := by
    intro pos hpos
    rw [hpre, List.getElem?_append_left (by omega)]
    exact natToBits32_zero_at codes.length (by omega) pos hpos
  have hpreD : ∀ q, q % 8 = 0 → q < 8 * codes.length → pre[32 + q]? = some false := by
    intro q hq8 hqlt
    rw [hpre, List.getElem?_append_right (by omega), hP32len]
    rw [show 32 + q - 32 = q by omega]
    exact stringToBinary_msb codes hascii q hq8 (by omega)
  by_cases hk32 : k ≤ 32
  · have h0 := hwin 0 (by omega)
    rw [hmarker_true 0 (by omega)] at h0
    have := hpreF1 (k - 16) (by omega)
    rw [show k - 16 + 0 = k - 16 by omega] at h0
    rw [this] at h0
    simp at h0
  · by_cases hk33 : k = 33
    · refine natToBits32_low15_true_impossible codes.length hlen ?_
      intro i hi
      have hw := hwin i (by omega)
      rw [hmarker_true i hi] at hw
      rw [hk33] at hw
      rw [show 33 - 16 + i = 17 + i by omega] at hw
      rw [hpre, List.getElem?_append_left (by omega)] at hw
      exact hw
    · by_cases hk47 : k ≤ 47
      · have hL1 : 1 ≤ codes.length := by omega
        obtain ⟨i, hi14, hi1⟩ : ∃ i, i ≤ 14 ∧ (k - 16) + i = 32 := ⟨32 - (k - 16), by omega, by omega⟩
        have hw := hwin i (by omega)
        rw [hmarker_true i (by omega), hi1] at hw
        have := hpreD 0 (by omega) (by omega)
        rw [show (32 : Nat) + 0 = 32 by omega] at this
        rw [this] at hw
        simp at hw
      · obtain ⟨i, hi7, hq0⟩ : ∃ i, i ≤ 7 ∧ (k - 48 + i) % 8 = 0 :=
          ⟨(8 - (k - 48) % 8) % 8, by omega, by omega⟩
        have hw := hwin i (by omega)
        rw [hmarker_true i (by omega)] at hw
        have hqlt : k - 48 + i < 8 * codes.length := by omega
        have := hpreD (k - 48 + i) hq0 hqlt
        rw [show 32 + (k - 48 + i) = (k - 16) + i by omega] at this
        rw [this] at hw
        simp at hw

/-! ### Claim theorems -/

set_option maxRecDepth 100000 in
/-- C6 counterexample: the round trip fails on an in-scope payload.
The envelope of the plain payload `"ÿÿ"` serializes (per
`JSON.stringify`) to `nonAsciiEnvelopeCodes`; a 92-pixel all-zero
carrier offers 276 usable bits, at least the required
`32 + 8·28 + 16 = 272`; the parser inverts the serialization; embedding
succeeds — yet extraction returns `none`, not the payload: the sixteen
1-bits of the two U+00FF code units followed by the MSB 0 of the next
byte forge a false end marker mid-stream, so the scan truncates the
data and the parse fails. -/
theorem roundtrip_fails_on_nonascii_payload :
    nonAsciiParser nonAsciiEnvelopeCodes = some (Envelope.plain "ÿÿ")
    ∧ nonAsciiEnvelopeCodes.length = 28
    ∧ 32 + 8 * nonAsciiEnvelopeCodes.length + 16 ≤ 3 * ((List.replicate 368 0).length / 4)
    ∧ embedData (List.replicate 368 0) nonAsciiEnvelopeCodes
      = some (writeLSBs (List.replicate 368 0) (embedPayloadBits nonAsciiEnvelopeCodes))
    ∧ extractPixels (writeLSBs (List.replicate 368 0) (embedPayloadBits nonAsciiEnvelopeCodes))
        nonAsciiParser = none := by
  refine ⟨by decide, by decide, by decide, by decide, by decide⟩

/-- C6 (amended): round-trip of the codec, restricted to the
serializations on which the bit framing is sound.  For any payload `d`,
any envelope that is either plain `d` or noise with the real entry (as
built by `embedData`) at its head, any serializer/parser pair that
inverts on this envelope and produces UTF-16 code units below 128
(ASCII — excluded non-ASCII serializations can forge a false end
marker, see the counterexample) of length below 32767, and any RGBA
carrier with capacity `3 × pixelCount` at least the required
`32 + 8L + 16` bits, embedding followed by extraction recovers exactly
`d`. -/
theorem embed_extract_roundtrip
    (α : Type) (d : α) (env : Envelope α)
    (ser : Envelope α → List Nat) (par : List Nat → Option (Envelope α))
    (pixels : List Nat)
    (henv : env = Envelope.plain d ∨ ∃ ds, env = Envelope.noise (realNEntry d :: ds))
    (hpar : par (ser env) = some env)
    (hascii : ∀ c ∈ ser env, c < 128)
    (hlen : (ser env).length < 32767)
    (hmod : pixels.length % 4 = 0)
    (hcap : 32 + 8 * (ser env).length + 16 ≤ 3 * (pixels.length / 4)) :
    embedData pixels (ser env)
      = some (writeLSBs pixels (embedPayloadBits (ser env)))
    ∧ extractPixels (writeLSBs pixels (embedPayloadBits (ser env))) par = some d := by
  set codes := ser env with hcodes
  have hP32len : (natToBits codes.length 32).length = 32 :=
    natToBits_thirtytwo_length codes.length (by omega)
  have hDlen : (stringToBinary codes).length = 8 * codes.length :=
    stringToBinary_length codes (fun c hc => by have := hascii c hc; omega)
  have hfullLen : (embedPayloadBits codes).length = 32 + 8 * codes.length + 16 := by
    rw [embedPayloadBits]
    simp only [List.length_append, hP32len, hDlen]
    rw [show endMarker.length = 16 from rfl]
  have hno : ¬(pixels.length * 3 < (embedPayloadBits codes).length) := by
    rw [hfullLen]
    omega
  have hemb0 : embedData pixels codes
      = if pixels.length * 3 < (embedPayloadBits codes).length then none
        else some (writeLSBs pixels (embedPayloadBits codes)) := rfl
  refine ⟨by rw [hemb0, if_neg hno], ?_⟩
  have hstream : rgbLSBs (writeLSBs pixels (embedPayloadBits codes))
      = embedPayloadBits codes
        ++ (rgbLSBs pixels).drop (embedPayloadBits codes).length :=
    rgbLSBs_writeLSBs pixels (embedPayloadBits codes) hmod (by rw [hfullLen]; omega)
  have hsplit : embedPayloadBits codes
        ++ (rgbLSBs pixels).drop (embedPayloadBits codes).length
      = (natToBits codes.length 32 ++ stringToBinary codes)
        ++ (endMarker ++ (rgbLSBs pixels).drop (embedPayloadBits codes).length) := by
    rw [embedPayloadBits, List.append_assoc]
  have hnomark : ∀ k, 1 ≤ k →
      k ≤ (natToBits codes.length 32 ++ stringToBinary codes).length →
      ¬(16 ≤ ([] ++ (natToBits codes.length 32 ++ stringToBinary codes).take k).length ∧
        ([] ++ (natToBits codes.length 32 ++ stringToBinary codes).take k).drop
          (([] ++ (natToBits codes.length 32 ++ stringToBinary codes).take k).length - 16)
          = endMarker) := by
    intro k hk1 hk2 hc
    rw [List.nil_append] at hc
    obtain ⟨hc1, hc2⟩ := hc
    have hkl : ((natToBits codes.length 32 ++ stringToBinary codes).take k).length = k := by
      rw [List.length_take]
      omega
    rw [hkl] at hc1 hc2
    exact ascii_no_false_marker codes hascii hlen k hc1 hk2 hc2
  have hscan : scanForMarker (rgbLSBs (writeLSBs pixels (embedPayloadBits codes))) []
      = some (natToBits codes.length 32 ++ stringToBinary codes) := by
    rw [hstream, hsplit]
    have := scan_through (natToBits codes.length 32 ++ stringToBinary codes) []
      ((rgbLSBs pixels).drop (embedPayloadBits codes).length) hnomark
    simpa using this
  have hprelen : (natToBits codes.length 32 ++ stringToBinary codes).length
      = 32 + 8 * codes.length := by
    rw [List.length_append, hP32len, hDlen]
  have htake32 : (natToBits codes.length 32 ++ stringToBinary codes).take 32
      = natToBits codes.length 32 := List.take_left' hP32len
  have hdrop32 : (natToBits codes.length 32 ++ stringToBinary codes).drop 32
      = stringToBinary codes := List.drop_left' hP32len
  have hLval : bitsToNat ((natToBits codes.length 32 ++ stringToBinary codes).take 32)
      = codes.length := by
    rw [htake32, bitsToNat_natToBits]
  have htakeD : (stringToBinary codes).take (8 * codes.length) = stringToBinary codes := by
    rw [← hDlen]
    exact List.take_length _
  have hb2s : binaryToString (stringToBinary codes) = codes :=
    binaryToString_stringToBinary codes (fun c hc => by have := hascii c hc; omega)
  have hdisp : dispatchEnvelope env = some d := by
    rcases henv with rfl | ⟨ds, rfl⟩
    · rfl
    · have hreal : realPred (realNEntry d) = true := by simp [realPred, realNEntry]
      simp only [dispatchEnvelope]
      rw [List.find?_cons_of_pos _ hreal]
      rfl
  rw [extractPixels]
  simp only [hscan]
  rw [if_neg (show ¬(natToBits codes.length 32 ++ stringToBinary codes).length < 32 by
    rw [hprelen]; omega)]
  rw [hLval, hdrop32, htakeD, hb2s]
  simp only [hpar]
  exact hdisp

/-- C6 witness: `embed_extract_roundtrip` at a concrete plain-mode
payload, serializer/parser pair and a 24-pixel all-zero carrier. -/
theorem embed_extract_roundtrip_witness :
    embedData (List.replicate 96 0) [65, 66]
      = some (writeLSBs (List.replicate 96 0) (embedPayloadBits [65, 66]))
    ∧ extractPixels (writeLSBs (List.replicate 96 0) (embedPayloadBits [65, 66]))
        (fun s => if s = [65, 66] then some (Envelope.plain 7) else none) = some 7 := by
  have h := embed_extract_roundtrip Nat 7 (Envelope.plain 7)
    (fun _ => [65, 66])
    (fun s => if s = [65, 66] then some (Envelope.plain 7) else none)
    (List.replicate 96 0)
    (Or.inl rfl) (by decide) (by decide) (by decide) (by decide) (by decide)
  exact h

/-- C10: `extractData` is total at its public boundary: for every read
outcome it returns either a recovered value or `null`, and each listed
failure mode — a read/decode fault, a stream with no end marker, a
truncated bit buffer (fewer than 32 bits before the marker), and
embedded bytes the JSON layer cannot parse — yields `null` rather than
an exception or a partial result. -/
theorem extract_total_boundary :
    ∀ (α : Type) (par : List Nat → Option (Envelope α)) (read : Except String (List Nat)),
      (extractFromRead read par = none ∨ ∃ v, extractFromRead read par = some v)
      ∧ (∀ e : String, extractFromRead (Except.error e) par = none)
      ∧ (∀ px : List Nat, scanForMarker (rgbLSBs px) [] = none →
          extractFromRead (Except.ok px) par = none)
      ∧ (∀ (px : List Nat) (bd : List Bool), scanForMarker (rgbLSBs px) [] = some bd →
          bd.length < 32 → extractFromRead (Except.ok px) par = none)
      ∧ (∀ (px : List Nat) (bd : List Bool), scanForMarker (rgbLSBs px) [] = some bd →
          32 ≤ bd.length →
          par (binaryToString ((bd.drop 32).take (8 * bitsToNat (bd.take 32)))) = none →
          extractFromRead (Except.ok px) par = none) := by
  intro α par read
  refine ⟨?_, ?_, ?_, ?_, ?_⟩
  · cases h : extractFromRead read par with
    | none => exact Or.inl rfl
    | some v => exact Or.inr ⟨v, rfl⟩
  · intro e
    rfl
  · intro px h
    show extractPixels px par = none
    rw [extractPixels]
    simp only [h]
  · intro px bd h h32
    show extractPixels px par = none
    rw [extractPixels]
    simp only [h]
    rw [if_pos h32]
  · intro px bd h h32 hp
    show extractPixels px par = none
    rw [extractPixels]
    simp only [h]
    rw [if_neg (by omega)]
    simp only [hp]

/-- C10 witness: `extract_total_boundary` applied to a concrete faulted
read, an empty carrier, a carrier whose LSB stream opens with the end
marker (truncated bit buffer), and a carrier carrying 48 zero bits
before the marker with a parser that rejects the recovered string. -/
theorem extract_total_boundary_witness :
    extractFromRead (α := Nat) (Except.error "ENOENT") (fun _ => none) = none
    ∧ extractFromRead (α := Nat) (Except.ok []) (fun _ => none) = none
    ∧ extractFromRead (α := Nat)
        (Except.ok [1, 1, 1, 0, 1, 1, 1, 0, 1, 1, 1, 0, 1, 1, 1, 0, 1, 1, 1, 0, 0, 1, 1, 0])
        (fun _ => none) = none
    ∧ extractFromRead (α := Nat)
        (Except.ok (List.replicate 64 0
          ++ [1, 1, 1, 0, 1, 1, 1, 0, 1, 1, 1, 0, 1, 1, 1, 0, 1, 1, 1, 0, 0, 1, 1, 0]))
        (fun _ => none) = none := by
  refine ⟨(extract_total_boundary Nat (fun _ => none) (Except.error "ENOENT")).2.1 "ENOENT",
    (extract_total_boundary Nat (fun _ => none) (Except.ok [])).2.2.1 [] (by decide),
    (extract_total_boundary Nat (fun _ => none)
      (Except.ok [1, 1, 1, 0, 1, 1, 1, 0, 1, 1, 1, 0, 1, 1, 1, 0, 1, 1, 1, 0, 0, 1, 1, 0])).2.2.2.1
      [1, 1, 1, 0, 1, 1, 1, 0, 1, 1, 1, 0, 1, 1, 1, 0, 1, 1, 1, 0, 0, 1, 1, 0]
      [] (by decide) (by decide),
    (extract_total_boundary Nat (fun _ => none)
      (Except.ok (List.replicate 64 0
        ++ [1, 1, 1, 0, 1, 1, 1, 0, 1, 1, 1, 0, 1, 1, 1, 0, 1, 1, 1, 0, 0, 1, 1, 0]))).2.2.2.2
      (List.replicate 64 0
        ++ [1, 1, 1, 0, 1, 1, 1, 0, 1, 1, 1, 0, 1, 1, 1, 0, 1, 1, 1, 0, 0, 1, 1, 0])
      (List.replicate 48 false) (by decide) (by decide) rfl⟩

/-- C2 counterexample: two noise-mode envelope constructions with
different entropy draws (hence different decoys) both place the real
entry at index 0 — the position is the fixed constant 0, not a fresh
random permutation per call. -/
theorem noise_real_entry_position_fixed_pairs :
    realEntryIndex (envelopeEntries (buildEmbedPayload 7 true
      (genDecoys Nat [(List.replicate 32 0, List.replicate 32 17, "aaaaaa")]))) = 0
    ∧ realEntryIndex (envelopeEntries (buildEmbedPayload 7 true
      (genDecoys Nat [(List.replicate 32 255, List.replicate 32 204, "zzzzzz")]))) = 0
    ∧ genDecoys Nat [(List.replicate 32 0, List.replicate 32 17, "aaaaaa")]
      ≠ genDecoys Nat [(List.replicate 32 255, List.replicate 32 204, "zzzzzz")] := by
  refine ⟨by decide, by decide, by decide⟩

/-- C2 (amended): the noise-mode payload builder performs no
permutation — for every payload and every generated decoy list the
entries are exactly the real entry followed by the decoys in generation
order, so the real entry always occupies position 0. -/
theorem noise_real_entry_always_first (α : Type) (data : α) (decoys : List (NEntry α)) :
    envelopeEntries (buildEmbedPayload data true decoys) = realNEntry data :: decoys
    ∧ realEntryIndex (envelopeEntries (buildEmbedPayload data true decoys)) = 0 := by
  refine ⟨rfl, ?_⟩
  simp [realEntryIndex, buildEmbedPayload, envelopeEntries, realNEntry, List.findIdx_cons]

/-- C3 counterexample: a noise envelope with two entries tagged "real"
does not yield `Malformed` (`null`) — extraction silently selects the
first real entry. -/
theorem noise_two_real_entries_selects_first :
    dispatchEnvelope (Envelope.noise [realNEntry 1, realNEntry 2]) = some 1
    ∧ dispatchEnvelope (Envelope.noise [realNEntry 1, realNEntry 2]) ≠ none := by
  refine ⟨rfl, by decide⟩

/-- C3 (amended): in noise mode, when no entry satisfies the real-entry
predicate the result is `null`; when at least one does, the first such
entry's data is returned — in particular an envelope with several
"real" entries is not rejected as malformed. -/
theorem noise_selection_behavior :
    (∀ (α : Type) (entries : List (NEntry α)),
      (∀ e ∈ entries, realPred e = false) →
      dispatchEnvelope (Envelope.noise entries) = none)
    ∧ (∀ (α : Type) (a : α) (pre post : List (NEntry α)),
      (∀ e ∈ pre, realPred e = false) →
      dispatchEnvelope (Envelope.noise (pre ++ realNEntry a :: post)) = some a) := by
  constructor
  · intro α entries h
    have hf : entries.find? realPred = none := by
      rw [List.find?_eq_none]
      intro x hx
      simp [h x hx]
    simp [dispatchEnvelope, hf]
  · intro α a pre post h
    have hpre : pre.find? realPred = none := by
      rw [List.find?_eq_none]
      intro x hx
      simp [h x hx]
    have hreal : realPred (realNEntry a) = true := by
      simp [realPred, realNEntry]
    have hf : (pre ++ realNEntry a :: post).find? realPred = some (realNEntry a) := by
      rw [find?_append_of_none realPred pre _ hpre]
      simp [List.find?_cons, hreal]
    simp only [dispatchEnvelope]
    rw [hf]
    rfl

/-- C3 witness: concrete instantiations of both parts of
`noise_selection_behavior`. -/
theorem noise_selection_behavior_witness :
    dispatchEnvelope (Envelope.noise [mkDecoy Nat [] [] "x"]) = none
    ∧ dispatchEnvelope (Envelope.noise ([mkDecoy Nat [] [] "x"] ++ realNEntry 5 :: [])) = some 5 :=
  ⟨noise_selection_behavior.1 Nat [mkDecoy Nat [] [] "x"] (by decide),
   noise_selection_behavior.2 Nat 5 [mkDecoy Nat [] [] "x"] [] (by decide)⟩

/-- C8 counterexample: a concretely generated decoy does not have the
field shape of the real entry — the real entry nests its record under
`data` and has no fake fields, while the decoy has no `data` and
carries `fakeHash`/`fakeSignature` of 64 hex characters. -/
theorem decoy_shape_differs_from_real :
    (mkDecoy Nat (List.replicate 32 0) (List.replicate 32 255) "abc123").payload = none
    ∧ (realNEntry 7).payload = some 7
    ∧ (realNEntry (α := Nat) 7).fakeHash = none
    ∧ (mkDecoy Nat (List.replicate 32 0) (List.replicate 32 255) "abc123").fakeHash.isSome = true
    ∧ ((mkDecoy Nat (List.replicate 32 0) (List.replicate 32 255) "abc123").fakeSignature.getD "").length = 64 := by
  refine ⟨rfl, rfl, rfl, rfl, by decide⟩

/-- C8 (amended): every generated decoy has the fixed shape
`{type: 'decoy', fakeHash, fakeSignature, fakeIssuer}` with no `data`
field: the fake hash and fake signature are always 64 lowercase hex
characters (32 random bytes hex-encoded) and the fake issuer is
`'decoy-'` plus the random suffix — independent of the real entry's
field lengths. -/
theorem decoy_generated_shape (α : Type) (hashBytes sigBytes : List Nat) (suffix : String)
    (h1 : hashBytes.length = 32) (h2 : sigBytes.length = 32) :
    (mkDecoy α hashBytes sigBytes suffix).tag = "decoy"
    ∧ (mkDecoy α hashBytes sigBytes suffix).payload = none
    ∧ ((mkDecoy α hashBytes sigBytes suffix).fakeHash.getD "").length = 64
    ∧ ((mkDecoy α hashBytes sigBytes suffix).fakeSignature.getD "").length = 64
    ∧ (mkDecoy α hashBytes sigBytes suffix).fakeIssuer = some ("decoy-" ++ suffix) := by
  refine ⟨rfl, rfl, ?_, ?_, rfl⟩
  · show (hexEncode hashBytes).length = 64
    rw [hexEncode_length, h1]
  · show (hexEncode sigBytes).length = 64
    rw [hexEncode_length, h2]

/-- C8 witness: `decoy_generated_shape` applied at a concrete entropy
draw. -/
theorem decoy_generated_shape_witness :
    (mkDecoy Nat (List.replicate 32 3) (List.replicate 32 77) "q0q0q0").tag = "decoy"
    ∧ (mkDecoy Nat (List.replicate 32 3) (List.replicate 32 77) "q0q0q0").payload = none
    ∧ ((mkDecoy Nat (List.replicate 32 3) (List.replicate 32 77) "q0q0q0").fakeHash.getD "").length = 64
    ∧ ((mkDecoy Nat (List.replicate 32 3) (List.replicate 32 77) "q0q0q0").fakeSignature.getD "").length = 64
    ∧ (mkDecoy Nat (List.replicate 32 3) (List.replicate 32 77) "q0q0q0").fakeIssuer = some ("decoy-" ++ "q0q0q0") :=
  decoy_generated_shape Nat (List.replicate 32 3) (List.replicate 32 77) "q0q0q0"
    (by decide) (by decide)

/-- C5 counterexample: a read/decode fault in extraction produces the
very same no-embedded-data response as a carrier with no hidden data —
an `Invalid`-style outcome with `valid = false` — not a distinct
`Faulted` state. -/
theorem decode_fault_coerced_to_invalid :
    verifyCertificateFromRead (fun _ => none) (Except.error "corrupt image container")
      (fun _ => none) (fun _ _ _ => false) "d" = noEmbeddedDataResponse
    ∧ noEmbeddedDataResponse.valid = false
    ∧ noEmbeddedDataResponse.success = false := by
  refine ⟨rfl, rfl, rfl⟩

/-- C5 (amended): `extractData` catches every read/decode fault and
returns `null`, so for every fault the verification route returns
exactly the no-embedded-data response — identical to the response for a
carrier from which nothing is extracted; there is no distinct `Faulted`
outcome on this path. -/
theorem decode_fault_yields_no_embedded_response
    (par : List Nat → Option (Envelope EmbeddedPayload)) (e : String)
    (chain : String → Option String) (sigCheck : String → String → String → Bool)
    (fileHash : String) :
    verifyCertificateFromRead par (Except.error e) chain sigCheck fileHash
      = noEmbeddedDataResponse
    ∧ verifyCertificateFromRead par (Except.error e) chain sigCheck fileHash
      = verifyPipeline chain sigCheck fileHash none :=
  ⟨rfl, rfl⟩

/-- C7 counterexample: the no-embedded-data response contains no
`failedAt` key (neither at the top level nor inside
`verificationDetails`), and reports the later stages as the boolean
`false` — not as a distinguished "not attempted" marker. -/
theorem no_embedded_response_lacks_failedAt :
    verifyNoEmbeddedKeys.contains "failedAt" = false
    ∧ verifyNoEmbeddedDetailKeys.contains "failedAt" = false
    ∧ noEmbeddedDataResponse.signatureVerified = false
    ∧ noEmbeddedDataResponse.blockchainVerified = false := by
  refine ⟨by decide, by decide, rfl, rfl⟩

/-- C7 (amended): when extraction yields nothing the route's outcome is
the fixed no-embedded-data response: `valid = false`,
`signatureVerified = false`, `blockchainVerified = false` (so never
`Valid`); the response carries a message and `hasEmbeddedData = false`
rather than a `failedAt` field, and later stages are reported as the
boolean `false` rather than "not attempted". -/
theorem notfound_outcome_invalid_fixed_fields
    (chain : String → Option String) (sigCheck : String → String → String → Bool)
    (fileHash : String) :
    verifyPipeline chain sigCheck fileHash none = noEmbeddedDataResponse
    ∧ (verifyPipeline chain sigCheck fileHash none).valid = false
    ∧ (verifyPipeline chain sigCheck fileHash none).signatureVerified = false
    ∧ (verifyPipeline chain sigCheck fileHash none).blockchainVerified = false
    ∧ (verifyPipeline chain sigCheck fileHash none).hasEmbeddedData = false :=
  ⟨rfl, rfl, rfl, rfl, rfl⟩

/-- C9: `utils/hash.js` exports no `generateCombinedHash`, so the
binding destructured by `issue.js` is `undefined` and every issuance
reaching step 3 throws a `TypeError` instead of composing the combined
digest. -/
theorem issue_combined_hash_not_exported :
    hashUtilsExports.contains "generateCombinedHash" = false
    ∧ ∀ certificateHash signature : String,
        issueCombinedHashStep certificateHash signature
          = Except.error "TypeError: generateCombinedHash is not a function" :=
  ⟨by decide, fun _ _ => rfl⟩

/-- C4: the capacity check compares the framed bit count against
`pixels.length * 3` where `pixels.length` is the RGBA byte count
(4 × pixelCount), not against the 3 × pixelCount bits the write loop
can actually place.  For a 24-pixel carrier (96 bytes) and a 4-byte
payload the required 80 bits exceed the true capacity of 72, yet the
check passes and only the first 72 bits are written — the framed stream
is silently truncated instead of failing before any pixel write. -/
theorem embed_capacity_check_overcounts :
    (embedPayloadBits [65, 65, 65, 65]).length = 80
    ∧ 3 * (96 / 4) = 72
    ∧ embedData (List.replicate 96 0) [65, 65, 65, 65]
      = some (writeLSBs (List.replicate 96 0) (embedPayloadBits [65, 65, 65, 65]))
    ∧ rgbLSBs (writeLSBs (List.replicate 96 0) (embedPayloadBits [65, 65, 65, 65]))
      = (embedPayloadBits [65, 65, 65, 65]).take 72 := by
  refine ⟨by decide, by decide, ?_, by decide⟩
  decide

/-- C1: the anchor-stage comparison uses the bare recomputed file
digest, not the recomputed combined digest.  Concretely: the anchor
store holds exactly the issuance-stored combined digest (standing for
`Digest(fileDigest ++ signature)`), so comparing the combined digest
against it succeeds, yet the pipeline's blockchain check fails because
`verify.js` passes the bare `certificateHash` as the expected value. -/
theorem anchor_check_compares_bare_file_digest :
    verifyHashData ((fun r => if r == "0xref" then some (ensure0x "bbbb") else none) "0xref")
      "bbbb" = true
    ∧ (verifyPipeline (fun r => if r == "0xref" then some (ensure0x "bbbb") else none)
        (fun _ _ _ => true) "aaaa"
        (some { transactionHash := "0xref", signature := "sig",
                certificateHash := "aaaa", combinedHash := "bbbb",
                issuerId := "univ-1" })).blockchainVerified = false
    ∧ (verifyPipeline (fun r => if r == "0xref" then some (ensure0x "bbbb") else none)
        (fun _ _ _ => true) "aaaa"
        (some { transactionHash := "0xref", signature := "sig",
                certificateHash := "aaaa", combinedHash := "bbbb",
                issuerId := "univ-1" })).valid = false := by
  refine ⟨by decide, by decide, by decide⟩
